import Mathlib

/-!
Shallow embedding of the data-acquisition engine of exportify-cli
(src/exportify-cli.py and the legacy src/exportify.py).

Machine integers do not occur; Python strings are Lean `String`s and
Python `None` / heterogeneous dict values are modelled by `PyVal`.
-/

/-- A Python value as it occurs in the export records: `None`, a string,
an int, or a list of values. -/
inductive PyVal where
  | none : PyVal
  | str : String → PyVal
  | int : Int → PyVal
  | list : List PyVal → PyVal

mutual

/-- Python `repr` for the values we model (`repr(None) = "None"`,
strings get single quotes, lists are bracketed and comma separated). -/
def pyReprV : PyVal → String
  | .none => "None"
  | .str s => "'" ++ s ++ "'"
  | .int n => toString n
  | .list xs => "[" ++ String.intercalate ", " (pyReprList xs) ++ "]"

/-- `repr` of each element of a Python list. -/
def pyReprList : List PyVal → List String
  | [] => []
  | v :: vs => pyReprV v :: pyReprList vs

end

/-- Python `str` for the values we model (`str` of a string is itself,
otherwise it agrees with `repr`). -/
def pyStr : PyVal → String
  | .str s => s
  | v => pyReprV v

/-- Python truthiness of a value (`None`, `""`, `0`, `[]` are falsy). -/
def isTruthy : PyVal → Bool
  | .none => false
  | .str s => s ≠ ""
  | .int n => n ≠ 0
  | .list xs => ¬ xs.isEmpty

/-- Python `a or b`. -/
def pyOr (a b : PyVal) : PyVal := if isTruthy a then a else b

/-- `dict.get` result of an optional string field. -/
def optStr : Option String → PyVal
  | some s => .str s
  | none => .none

/-- `dict.get` result of an optional integer field. -/
def optInt : Option Int → PyVal
  | some n => .int n
  | none => .none

/-!
## Pagination (`SpotifyExporter._fetch_all_items`, paginated mode, and the
pagination loop of `exportify.py` `export_playlist_to_csv`)

The paginated source is modelled by its first page plus the list of pages
the continuation cursor would serve afterwards; the cursor is exhausted
exactly when that list is empty.
-/

/-- The cli pagination loop
`while len(items) < total: results = self.spotify.next(results); items.extend(...)`
(src/exportify-cli.py lines 300-305).  `acc` is `items` so far, the third
argument is the list of pages still served by the cursor.  When the loop
wants another page but the cursor is exhausted, `spotipy.next` returns
`None` and `results.get(key, [])` raises `AttributeError`: modelled as
`Option.none`. -/
def fetchPages {α : Type} (total : Nat) (acc : List α) : List (List α) → Option (List α)
  | [] => if total ≤ acc.length then some acc else none
  | p :: ps => if total ≤ acc.length then some acc else fetchPages total (acc ++ p) ps

/-- The legacy pagination loop of `exportify.py`
(`while results['next']: ... tracks.extend(results['items'])`, lines 87-89):
it follows the cursor to exhaustion and ignores the declared total. -/
def fetchPagesPy {α : Type} (acc : List α) : List (List α) → List α
  | [] => acc
  | p :: ps => fetchPagesPy (acc ++ p) ps

theorem fetchPagesPy_eq_flatten {α : Type} (acc : List α) (rest : List (List α)) :
    fetchPagesPy acc rest = acc ++ rest.flatten := by
  induction rest generalizing acc with
  | nil => simp [fetchPagesPy]
  | cons p ps ih => simp [fetchPagesPy, ih, List.flatten]

theorem fetchPages_complete {α : Type} (total : Nat) (acc : List α)
    (rest : List (List α)) (h : acc.length + (rest.map List.length).sum = total) :
    fetchPages total acc rest = some (acc ++ rest.flatten) := by
  induction rest generalizing acc with
  | nil =>
    simp only [List.map_nil, List.sum_nil, Nat.add_zero] at h
    simp [fetchPages, h]
  | cons p ps ih =>
    by_cases hle : total ≤ acc.length
    · have hz : p.length + ((ps.map List.length).sum) = 0 := by
        simp only [List.map_cons, List.sum_cons] at h
        omega
      have hp : p = [] := by
        have : p.length = 0 := by omega
        exact List.length_eq_zero.mp this
      have hj : ps.flatten = [] := by
        have : ps.flatten.length = 0 := by
          rw [List.length_flatten]
          omega
        exact List.length_eq_zero.mp this
      simp [fetchPages, hle, hp, hj]
    · have h' : (acc ++ p).length + ((ps.map List.length).sum) = total := by
        simp only [List.map_cons, List.sum_cons] at h
        simp only [List.length_append]
        omega
      simp [fetchPages, hle, ih (acc ++ p) h', List.flatten]

theorem fetchPages_none_iff {α : Type} (total : Nat) (acc : List α)
    (rest : List (List α)) :
    fetchPages total acc rest = none ↔
      acc.length + (rest.map List.length).sum < total := by
  induction rest generalizing acc with
  | nil =>
    by_cases hle : total ≤ acc.length
    · simp [fetchPages, hle]
    · simp [fetchPages, hle]
      omega
  | cons p ps ih =>
    by_cases hle : total ≤ acc.length
    · simp only [fetchPages, if_pos hle, List.map_cons, List.sum_cons]
      constructor
      · intro h
        exact absurd h (by simp)
      · intro h
        omega
    · rw [show fetchPages total acc (p :: ps) = fetchPages total (acc ++ p) ps by
        simp [fetchPages, hle]]
      rw [ih (acc ++ p)]
      simp only [List.length_append, List.map_cons, List.sum_cons]
      omega

theorem fetchPages_some_length {α : Type} (total : Nat) (acc : List α)
    (rest : List (List α)) (res : List α) (h : fetchPages total acc rest = some res) :
    total ≤ res.length := by
  induction rest generalizing acc with
  | nil =>
    simp only [fetchPages] at h
    by_cases hle : total ≤ acc.length
    · rw [if_pos hle] at h
      cases h
      exact hle
    · simp [hle] at h
  | cons p ps ih =>
    simp only [fetchPages] at h
    by_cases hle : total ≤ acc.length
    · rw [if_pos hle] at h
      cases h
      exact hle
    · rw [if_neg hle] at h
      exact ih (acc ++ p) h

/-!
## Entities

`Option` fields model Python dict keys that may be absent or `None`.
-/

/-- An artist object inside a track payload. -/
structure Artist where
  id : Option String
  name : Option String
  uri : Option String

/-- The album object embedded in a track payload (`track["album"]`). -/
structure AlbumRef where
  id : Option String
  name : Option String
  release_date : Option String

/-- A track payload of a membership item. -/
structure Track where
  id : Option String
  uri : Option String
  name : Option String
  album : Option AlbumRef
  artists : List Artist
  release_date : Option String
  duration_ms : Option Int
  popularity : Option Int
  isrc : Option String

/-- One playlist entry as served by the paginated endpoint: `track` is
nullable (a removed/unavailable item), plus provenance fields.
`added_by_id` stands for `item.get("added_by", {}).get("id")`. -/
structure MembershipItem where
  track : Option Track
  added_by_id : Option String
  added_at : Option String

/-- A full album entity as returned by the batch endpoint / the `show`
fallback and stored in the run-scoped cache. -/
structure Album where
  id : Option String
  uri : Option String
  name : Option String
  release_date : Option String
  label : Option String
  publisher : Option String
  upc : Option String

/-!
## Batch mode of `SpotifyExporter._fetch_all_items`
(src/exportify-cli.py lines 233-279)

The remote batch endpoint is a function from a chunk of IDs to the list
`results.get(key, [])`, whose entries may be `None`; the fallback endpoint
`self.spotify.show` either returns an item or raises `SpotifyException`
(modelled as `Except`; only that exception type is caught by the code).
-/

/-- A `spotipy.SpotifyException` message. -/
abbrev SpotifyErr := String

/-- `i.get("id")` under Python truthiness: an absent or empty-string id
does not count as fetched. -/
def truthyId (a : Album) : Option String :=
  a.id.bind (fun s => if s = "" then none else some s)

/-- `page_items = [i for i in page_items if i]` (line 257). -/
def respItems (resp : List (Option Album)) : List Album :=
  resp.filterMap id

/-- `fetched_ids = [i.get("id") for i in page_items if i and i.get("id")]`
(line 256). -/
def fetchedIds (resp : List (Option Album)) : List String :=
  resp.filterMap (fun oi => oi.bind truthyId)

/-- `unfetched_ids = list(set(batch) - set(fetched_ids))` (line 259).
Python set iteration order is unspecified; we model the set difference as
the deduplicated batch filtered to the ids not fetched. -/
def unfetchedIds (batch : List String) (resp : List (Option Album)) : List String :=
  batch.dedup.filter (fun i => ¬ i ∈ fetchedIds resp)

/-- The per-ID fallback loop (lines 260-266): `self.spotify.show(id)` for
each unfetched id, collecting successes in order and, for each
`SpotifyException`, logging a warning and omitting that id.  Returns
(successfully fetched items, ids warned about). -/
def fallbackFetch (showFn : String → Except SpotifyErr Album) :
    List String → List Album × List String
  | [] => ([], [])
  | i :: rest =>
    let r := fallbackFetch showFn rest
    match showFn i with
    | .ok it => (it :: r.1, r.2)
    | .error _ => (r.1, i :: r.2)

/-- `i["label"] = i.get("publisher")` applied to each fallback result
(lines 268-269). -/
def setLabel (a : Album) : Album := { a with label := a.publisher }

/-- Processing of one batch (lines 253-272): filter the `None` entries out
of the response, fall back per missing id, relabel the fallback results and
append them.  Returns (items aggregated for this batch, warned ids). -/
def processBatch (showFn : String → Except SpotifyErr Album)
    (resp : List (Option Album)) (batch : List String) : List Album × List String :=
  let fb := fallbackFetch showFn (unfetchedIds batch resp)
  (respItems resp ++ fb.1.map setLabel, fb.2)

/-- The chunking (lines 236-241):
`batches = [id_list[i:i+20] for i in range(0, total, 20) if id_list[i:i+20]]`
where `total = total_override if total_override is not None else len(id_list)`.
`range(0, total, 20)` has `(total + 19) / 20` elements. -/
def batchChunks (idList : List String) (total : Nat) : List (List String) :=
  ((List.range ((total + 19) / 20)).map
    (fun j => (idList.drop (20 * j)).take 20)).filter (fun c => ¬ c.isEmpty)

/-- Observable outcome of a batch-mode `_fetch_all_items` run: the
aggregated items, the warning log, and the remote calls issued (one batch
request per chunk, one `show` call per unfetched id). -/
structure BatchRun where
  items : List Album
  warnings : List String
  batchCalls : List (List String)
  fallbackCalls : List String

/-- The body of `for batch in batches:` (lines 252-275): issue the batch
request, process the response, aggregate. -/
def batchStep (batchFn : List String → List (Option Album))
    (showFn : String → Except SpotifyErr Album)
    (acc : BatchRun) (batch : List String) : BatchRun :=
  let resp := batchFn batch
  let pb := processBatch showFn resp batch
  { items := acc.items ++ pb.1
    warnings := acc.warnings ++ pb.2
    batchCalls := acc.batchCalls ++ [batch]
    fallbackCalls := acc.fallbackCalls ++ unfetchedIds batch resp }

/-- Batch mode of `_fetch_all_items` (lines 233-279): iterate over the
chunks, issue one batch request each, process the response, and aggregate.
`batchFn` is the remote batch endpoint (`fetch_func`), `showFn` the
fallback endpoint. -/
def fetchAllItemsBatch (batchFn : List String → List (Option Album))
    (showFn : String → Except SpotifyErr Album)
    (idList : List String) (totalOverride : Option Nat) : BatchRun :=
  let total := totalOverride.getD idList.length
  (batchChunks idList total).foldl (batchStep batchFn showFn) ⟨[], [], [], []⟩

/-!
## The run-scoped album cache (`SpotifyExporter.export_playlist`,
src/exportify-cli.py lines 402-421)

`self.album_cache` is a Python dict; we model it as an association list
where `lookup` returns the most recent binding (insertion prepends).
-/

/-- `ids_to_fetch = [aid for aid in album_ids if aid not in self.album_cache]`
(line 403). -/
def idsToFetch (albumIds : List String) (cache : List (String × Album)) : List String :=
  albumIds.filter (fun aid => (cache.lookup aid).isNone)

/-- `for alb in new_albums: if alb and alb.get("id"): self.album_cache[alb["id"]] = alb`
(lines 416-418); a later assignment to the same id wins, which the
prepend-plus-first-match `lookup` reproduces. -/
def updateCache (cache : List (String × Album)) (albs : List Album) :
    List (String × Album) :=
  albs.foldl
    (fun c alb =>
      match truthyId alb with
      | some i => (i, alb) :: c
      | none => c)
    cache

/-- The whole album-resolution step of `export_playlist`
(lines 402-421): drop the cached ids, batch-fetch the residual (with
`total_override=len(album_ids)`; `initial` only drives the progress bar),
insert the results into the cache, then build
`albums = {aid: self.album_cache[aid] for aid in album_ids}` (line 421).
`self.album_cache[aid]` raises `KeyError` when `aid` is still missing
because both its batch lookup and its fallback lookup failed: modelled as
`Option.none`.  Returns (updated cache, albums lookup or the raise). -/
def resolveAlbums (batchFn : List String → List (Option Album))
    (showFn : String → Except SpotifyErr Album) (albumIds : List String)
    (cache : List (String × Album)) :
    List (String × Album) × Option (List (String × Album)) :=
  let toFetch := idsToFetch albumIds cache
  let cache2 :=
    if toFetch.isEmpty then cache
    else
      updateCache cache
        (fetchAllItemsBatch batchFn showFn toFetch (some albumIds.length)).items
  (cache2,
    if albumIds.all (fun aid => (cache2.lookup aid).isSome) then
      some (albumIds.filterMap
        (fun aid => (cache2.lookup aid).map (fun a => (aid, a))))
    else none)

/-!
## Record normalization (`SpotifyExporter.export_playlist`,
src/exportify-cli.py lines 424-451)
-/

/-- `track = item.get("track") or {}`: the empty dict, every lookup `None`. -/
def emptyTrack : Track := ⟨none, none, none, none, [], none, none, none, none⟩

/-- `albums.get(..., {})` default: the empty dict. -/
def emptyAlbum : Album := ⟨none, none, none, none, none, none, none⟩

/-- An export record: the ordered mapping built per membership item. -/
abbrev ExportRec := List (String × PyVal)

/-- A truthy optional string, as `if a.get("name")` tests it: an absent
key or an empty string is dropped. -/
def truthyStr (s : Option String) : Option String :=
  s.bind (fun v => if v = "" then none else some v)

/-- Build one export record (lines 426-449).  `pos` is the 1-based
position from `enumerate(items, start=1)`; `albums` is the lookup built
from the cache.  `track.album = none` models the `"album"` key being
absent (`track.get("album", {})` then yields `{}`); a present key holding
`None` would instead raise at line 427, a state the API does not produce
for track payloads. -/
def buildRecord (pos : Nat) (albums : List (String × Album))
    (item : MembershipItem) : ExportRec :=
  let track := item.track.getD emptyTrack
  let album :=
    match track.album.bind AlbumRef.id with
    | some aid => (albums.lookup aid).getD emptyAlbum
    | none => emptyAlbum
  let artists := track.artists.filterMap (fun a => truthyStr a.name)
  let artistUris := track.artists.filterMap (fun a => truthyStr a.uri)
  [("Position", .int pos),
   ("Track URI", optStr track.uri),
   ("Artist URI(s)", .list (artistUris.map .str)),
   ("Album URI", optStr album.uri),
   ("Track Name", optStr track.name),
   ("Album Name", optStr album.name),
   ("Artist Name(s)", .list (artists.map .str)),
   ("Release Date", pyOr (optStr album.release_date) (optStr track.release_date)),
   ("Duration_ms", optInt track.duration_ms),
   ("Popularity", optInt track.popularity),
   ("Added By", optStr item.added_by_id),
   ("Added At", optStr item.added_at),
   ("Record Label", optStr album.label),
   ("Track ISRC", optStr track.isrc),
   ("Album UPC", optStr album.upc)]

/-- `for i, item in enumerate(items, start=1): ... export_data.append(record)`
(lines 425-451): every membership item, with or without a track payload,
contributes exactly one record. -/
def exportData (items : List MembershipItem) (albums : List (String × Album)) :
    List ExportRec :=
  items.enum.map (fun p => buildRecord (p.1 + 1) albums p.2)

/-!
## The legacy row builder and CSV writer of `exportify.py`
(lines 53-120)
-/

/-- `",".join(...)`. -/
def joinComma (xs : List String) : String := String.intercalate "," xs

/-- One CSV row of `exportify.py` (lines 100-113).  `track = item['track']`
followed by `"id" in track` raises `TypeError` when the track is `None`
(`argument of type 'NoneType' is not iterable`): modelled as `Option.none`.
An `Option` field being `none` models the dict key being absent. -/
def rowPy (item : MembershipItem) : Option (List PyVal) :=
  match item.track with
  | none => none
  | some track => some
      [.str (track.id.getD ""),
       .str (joinComma (track.artists.map (fun a => a.id.getD ""))),
       .str (track.name.getD ""),
       .str ((track.album.bind AlbumRef.name).getD ""),
       .str (joinComma (track.artists.map (fun a => a.name.getD ""))),
       optStr (track.album.bind AlbumRef.release_date),
       (match track.duration_ms with | some n => .int n | none => .str ""),
       (match track.popularity with | some n => .int n | none => .str ""),
       .str (item.added_by_id.getD ""),
       .str (item.added_at.getD "")]

/-- The row loop (lines 100-118): rows are written one by one; a raised
`TypeError` aborts the loop, leaving the rows written so far in the file. -/
def rowsPy : List MembershipItem → List (List PyVal)
  | [] => []
  | it :: rest =>
    match rowPy it with
    | none => []
    | some r => r :: rowsPy rest

/-- The header row of `exportify.py` (lines 57-62). -/
def headersPy : List String :=
  ["Spotify ID", "Artist IDs", "Track Name", "Album Name", "Artist Name(s)",
   "Release Date", "Duration (ms)", "Popularity", "Added By", "Added At",
   "Genres", "Danceability", "Energy", "Key", "Loudness", "Mode",
   "Speechiness", "Acousticness", "Instrumentalness", "Liveness",
   "Valence", "Tempo", "Time Signature"]

/-- The CSV file `exportify.py` produces for a playlist (lines 53-120): the
file is opened and the header row written before any track is fetched, so
the file always exists and always begins with the header row. -/
def exportPyCsvFile (tracks : List MembershipItem) : List (List PyVal) :=
  (headersPy.map PyVal.str) :: rowsPy tracks

/-!
## `write_file` (src/exportify-cli.py lines 162-182)
-/

/-- `write_file`: returns the list of file paths written and the number of
warnings emitted.  Empty data writes nothing and warns once; otherwise one
file per requested format is written and `logger.info` (not a warning) is
emitted. -/
def write_file (filePath : String) (data : List ExportRec)
    (fileFormats : List String) : List String × Nat :=
  if data.isEmpty then ([], 1)
  else
    ((if "csv" ∈ fileFormats then [filePath ++ ".csv"] else []) ++
     (if "json" ∈ fileFormats then [filePath ++ ".json"] else []), 0)

/-!
## `sanitize_filename` (src/exportify-cli.py lines 156-159)
-/

/-- Python `str.strip()` on a character list (whitespace both ends). -/
def pyStrip (l : List Char) : List Char :=
  ((l.dropWhile Char.isWhitespace).reverse.dropWhile Char.isWhitespace).reverse

/-- `sanitize_filename`: keep alphanumerics, space, underscore and hyphen,
replace every other character by an underscore, then
`safe.strip().replace(' ', '_').lower()`.  (`.replace(' ', '_')` on a
single-character pattern is character-wise; `isAlphanum`/`toLower` model
the ASCII behaviour of Python's `isalnum`/`lower`, which agree on the
inputs used here.) -/
def sanitize_filename (name : String) : String :=
  let safe := name.data.map
    (fun c => if c.isAlphanum || c = ' ' || c = '_' || c = '-' then c else '_')
  String.mk (((pyStrip safe).map (fun c => if c = ' ' then '_' else c)).map Char.toLower)

/-- `filepath = output_dir / sanitize_filename(name)` (line 350). -/
def exportPath (dir name : String) : String :=
  dir ++ "/" ++ sanitize_filename name

/-- Writing a file into a directory: mode `"w"` truncates, so a second
write to the same path replaces the first.  Modelled as an association
list where `lookup` sees the most recent write. -/
def fsWrite (fs : List (String × List ExportRec)) (p : String)
    (c : List ExportRec) : List (String × List ExportRec) :=
  (p, c) :: fs

/-!
## Post-processing (`SpotifyExporter.export_playlist`,
src/exportify-cli.py lines 453-466)

Python `list.sort(key=...)` is a stable sort by the key string under
lexicographic code-point comparison; any stable sort computes the same
output, and we use insertion sort placing each element before the first
element with a key not below its own.
-/

/-- Lexicographic code-point comparison of Python strings (as char lists). -/
def charsLe : List Char → List Char → Bool
  | [], _ => true
  | _ :: _, [] => false
  | a :: as, b :: bs =>
    if a.toNat < b.toNat then true
    else if b.toNat < a.toNat then false
    else charsLe as bs

/-- `a <= b` on Python strings. -/
def strLe (a b : String) : Bool := charsLe a.data b.data

/-- Insert `x` (originally earlier than everything in the list) before the
first element whose key is not below `f x`; stable. -/
def insertSorted {α : Type} (f : α → String) (x : α) : List α → List α
  | [] => [x]
  | y :: ys => if strLe (f x) (f y) then x :: y :: ys else y :: insertSorted f x ys

/-- Stable sort by a string key, as `list.sort(key=...)` computes it. -/
def stableSortBy {α : Type} (f : α → String) : List α → List α
  | [] => []
  | x :: xs => insertSorted f x (stableSortBy f xs)

/-- The sort key of the code, `str(x[self.sort_key]) or ""` (line 454),
for a record that has the key. -/
def codeSortVal (k : String) (r : ExportRec) : String :=
  let s := pyStr ((r.lookup k).getD .none)
  if s = "" then "" else s

/-- `export_data.sort(key=lambda x: str(x[self.sort_key]) or "")` guarded
by `if self.sort_key != "spotify_default"` (lines 453-454).  `x[k]` raises
`KeyError` when some record lacks the key; the sort evaluates the key
function on every element, so the whole sort either completes or raises
(`Option.none`). -/
def condSortCode (k : String) (data : List ExportRec) : Option (List ExportRec) :=
  if k = "spotify_default" then some data
  else if data.all (fun r => (r.lookup k).isSome) then
    some (stableSortBy (codeSortVal k) data)
  else none

/-- The sort key as the spec words it: the string representation of the
key's value, the empty string for a missing value. -/
def specSortVal (k : String) (r : ExportRec) : String :=
  match r.lookup k with
  | some v => pyStr v
  | none => ""

/-- Modelled from the spec: post-processing step (1), a stable sort by
`specSortVal` when a non-default sort key is requested. -/
def condSortSpec (k : String) (data : List ExportRec) : List ExportRec :=
  if k = "spotify_default" then data else stableSortBy (specSortVal k) data

/-- `if self.reverse_order: export_data.reverse()` (lines 456-457). -/
def condReverse (rev : Bool) (data : List ExportRec) : List ExportRec :=
  if rev then data.reverse else data

/-- `record.pop(...)` of the URI columns and the external-id columns when
their inclusion flags are false (lines 459-466). -/
def dropCols (includeUris externalIds : Bool) (data : List ExportRec) :
    List ExportRec :=
  let d1 :=
    if includeUris then data
    else data.map (fun r =>
      r.filter (fun kv => !(kv.1 == "Artist URI(s)") && !(kv.1 == "Album URI")))
  if externalIds then d1
  else d1.map (fun r =>
    r.filter (fun kv => !(kv.1 == "Track ISRC") && !(kv.1 == "Album UPC")))

/-- The post-processing of `export_playlist` as the code performs it
(lines 453-466): sort, then reverse, then drop columns. -/
def postProcessCode (k : String) (rev includeUris externalIds : Bool)
    (data : List ExportRec) : Option (List ExportRec) :=
  (condSortCode k data).map
    (fun d => dropCols includeUris externalIds (condReverse rev d))

/-- Modelled from the spec: the post-processing pipeline in the order the
spec states it — (1) stable sort by the string form of the key (empty for
missing), (2) reverse, (3) drop the optional columns. -/
def postProcessSpec (k : String) (rev includeUris externalIds : Bool)
    (data : List ExportRec) : List ExportRec :=
  dropCols includeUris externalIds (condReverse rev (condSortSpec k data))

/-!
## `rate_limited_request` (src/exportify.py lines 26-38)

Each element of the trace is the outcome of one invocation of `func`: a
return value, or a raised `spotipy.SpotifyException` carrying its
`http_status` and the (unused) server retry-after hint.
-/

/-- The outcome of one invocation of the wrapped operation. -/
inductive CallResult (α : Type) where
  | ok (a : α)
  | exn (httpStatus : Nat) (retryAfter : Option Nat)

/-- `rate_limited_request` over a finite trace of invocation outcomes.
Returns the delivered result (`Except` for a propagated exception) paired
with the total time slept, or `Option.none` when every outcome in the
trace is a 429 (the loop is still running).  On each 429 the code runs
`for remaining in range(60, -1, -1): time.sleep(1)` — 61 sleeps of one
second, never reading the retry-after hint. -/
def rate_limited_request {α : Type} :
    List (CallResult α) → Option (Except (Nat × Option Nat) α × Nat)
  | [] => none
  | .ok a :: _ => some (.ok a, 0)
  | .exn s ra :: rest =>
    if s = 429 then
      (rate_limited_request rest).map (fun p => (p.1, p.2 + 61))
    else
      some (.error (s, ra), 0)

theorem rate_limited_request_retries {α : Type} (hints : List (Option Nat))
    (rest : List (CallResult α)) :
    rate_limited_request ((hints.map (fun h => CallResult.exn 429 h)) ++ rest) =
      (rate_limited_request rest).map (fun p => (p.1, p.2 + 61 * hints.length)) := by
  induction hints with
  | nil =>
    cases h : rate_limited_request rest with
    | none => simp [h]
    | some p => simp [h]
  | cons h hs ih =>
    simp only [List.map_cons, List.cons_append, rate_limited_request, if_true,
      List.append_eq]
    rw [ih]
    cases hr : rate_limited_request rest with
    | none => simp
    | some p =>
      simp
      omega


/-!
## Helper lemmas: fallback resolution, folds, cache
-/

theorem fallbackFetch_fst (showFn : String → Except SpotifyErr Album)
    (ids : List String) :
    (fallbackFetch showFn ids).1 = ids.filterMap (fun y => (showFn y).toOption) := by
  induction ids with
  | nil => rfl
  | cons i rest ih =>
    simp only [fallbackFetch, List.filterMap_cons]
    cases h : showFn i with
    | ok it => simp [h, Except.toOption, ih]
    | error e => simp [h, Except.toOption, ih]

theorem fallbackFetch_snd (showFn : String → Except SpotifyErr Album)
    (ids : List String) :
    (fallbackFetch showFn ids).2 =
      ids.filter (fun y => ((showFn y).toOption).isNone) := by
  induction ids with
  | nil => rfl
  | cons i rest ih =>
    simp only [fallbackFetch, List.filter_cons]
    cases h : showFn i with
    | ok it => simp [h, Except.toOption, ih]
    | error e => simp [h, Except.toOption, ih]

theorem filter_eq_single {α : Type} [DecidableEq α] (l : List α) (p : α → Bool)
    (x : α) (hnd : l.Nodup) (hx : x ∈ l) (hp : ∀ y ∈ l, (p y = true ↔ y = x)) :
    l.filter p = [x] := by
  induction l with
  | nil => cases hx
  | cons a rest ih =>
    by_cases hax : a = x
    · subst hax
      have hpa : p a = true := (hp a (List.mem_cons_self a rest)).mpr rfl
      have hrest : rest.filter p = [] := by
        apply List.filter_eq_nil_iff.mpr
        intro y hy hpy
        have hya : y = a := (hp y (List.mem_cons_of_mem a hy)).mp hpy
        exact (List.nodup_cons.mp hnd).1 (hya ▸ hy)
      simp [List.filter_cons, hpa, hrest]
    · have hpa : ¬ p a = true := by
        intro hcontra
        exact hax ((hp a (List.mem_cons_self a rest)).mp hcontra)
      have hx' : x ∈ rest := by
        rcases List.mem_cons.mp hx with h1 | h2
        · exact absurd h1.symm hax
        · exact h2
      have hres := ih (List.nodup_cons.mp hnd).2 hx'
        (fun y hy => hp y (List.mem_cons_of_mem a hy))
      simp [List.filter_cons, hpa, hres]

theorem filterMap_drop_failing {α β : Type} [DecidableEq α] (g : α → Option β)
    (x : α) (hg : g x = none) (l : List α) :
    l.filterMap g = (l.filter (fun y => y ≠ x)).filterMap g := by
  induction l with
  | nil => rfl
  | cons a rest ih =>
    rw [List.filter_cons]
    by_cases hax : a = x
    · subst hax
      rw [if_neg (by simp)]
      rw [List.filterMap_cons, hg]
      exact ih
    · rw [if_pos (by simp [hax])]
      rw [List.filterMap_cons, List.filterMap_cons]
      cases g a with
      | none => exact ih
      | some b => rw [ih]

theorem foldl_batchStep_batchCalls (batchFn : List String → List (Option Album))
    (showFn : String → Except SpotifyErr Album) (chunks : List (List String)) :
    ∀ init : BatchRun,
      (chunks.foldl (batchStep batchFn showFn) init).batchCalls =
        init.batchCalls ++ chunks := by
  induction chunks with
  | nil => intro init; simp
  | cons c cs ih =>
    intro init
    simp only [List.foldl_cons, ih, batchStep]
    simp

theorem foldl_batchStep_fallbackCalls (batchFn : List String → List (Option Album))
    (showFn : String → Except SpotifyErr Album) (chunks : List (List String)) :
    ∀ init : BatchRun,
      (chunks.foldl (batchStep batchFn showFn) init).fallbackCalls =
        init.fallbackCalls ++
          (chunks.map (fun b => unfetchedIds b (batchFn b))).flatten := by
  induction chunks with
  | nil => intro init; simp
  | cons c cs ih =>
    intro init
    simp only [List.foldl_cons, ih, batchStep, List.map_cons, List.flatten_cons]
    simp

theorem updateCache_cons (cache : List (String × Album)) (alb : Album)
    (rest : List Album) :
    updateCache cache (alb :: rest) =
      updateCache
        (match truthyId alb with
         | some i => (i, alb) :: cache
         | none => cache) rest := rfl

theorem lookup_updateCache_isSome (albs : List Album) :
    ∀ (cache : List (String × Album)) (x : String),
      (cache.lookup x).isSome = true →
      ((updateCache cache albs).lookup x).isSome = true := by
  induction albs with
  | nil => intro cache x h; exact h
  | cons alb rest ih =>
    intro cache x h
    rw [updateCache_cons]
    cases hid : truthyId alb with
    | none => exact ih cache x h
    | some i =>
      apply ih ((i, alb) :: cache) x
      cases hbe : x == i with
      | true => simp [List.lookup, hbe]
      | false => simp [List.lookup, hbe, h]

theorem lookup_updateCache_of_mem (albs : List Album) :
    ∀ (cache : List (String × Album)) (alb : Album), alb ∈ albs →
      ∀ i, truthyId alb = some i →
      ((updateCache cache albs).lookup i).isSome = true := by
  induction albs with
  | nil => intro cache alb h; cases h
  | cons a rest ih =>
    intro cache alb hmem i hid
    rw [updateCache_cons]
    rcases List.mem_cons.mp hmem with rfl | hmem'
    · rw [hid]
      apply lookup_updateCache_isSome
      simp [List.lookup]
    · cases hid' : truthyId a with
      | none => exact ih cache alb hmem' i hid
      | some j => exact ih ((j, a) :: cache) alb hmem' i hid

/-!
## Helper lemmas: chunking
-/

theorem chunksFlatten (n : Nat) :
    ∀ l : List String, l.length ≤ 20 * n →
      ((List.range n).map (fun j => (l.drop (20 * j)).take 20)).flatten = l := by
  induction n with
  | zero =>
    intro l h
    have hl : l = [] := List.length_eq_zero.mp (by omega)
    simp [hl]
  | succ n ih =>
    intro l h
    rw [List.range_succ_eq_map]
    simp only [List.map_cons, List.map_map, List.flatten_cons, Nat.mul_zero,
      List.drop_zero]
    have hfun : ((fun j => (l.drop (20 * j)).take 20) ∘ Nat.succ) =
        (fun j => ((l.drop 20).drop (20 * j)).take 20) := by
      funext j
      simp only [Function.comp, List.drop_drop]
      congr 2
      omega
    rw [hfun, ih (l.drop 20) (by rw [List.length_drop]; omega)]
    exact List.take_append_drop 20 l

theorem batchChunks_of_le (l : List String) (total : Nat) (h : l.length ≤ total) :
    batchChunks l total =
      (List.range ((l.length + 19) / 20)).map (fun j => (l.drop (20 * j)).take 20) := by
  have hkm : (l.length + 19) / 20 ≤ (total + 19) / 20 :=
    Nat.div_le_div_right (by omega)
  rw [batchChunks,
    show (total + 19) / 20 = (l.length + 19) / 20 + ((total + 19) / 20 - (l.length + 19) / 20)
      by omega,
    List.range_add, List.map_append, List.filter_append]
  have hfirst :
      ((List.range ((l.length + 19) / 20)).map
        (fun j => (l.drop (20 * j)).take 20)).filter (fun c => ¬ c.isEmpty) =
      (List.range ((l.length + 19) / 20)).map (fun j => (l.drop (20 * j)).take 20) := by
    apply List.filter_eq_self.mpr
    intro c hc
    obtain ⟨j, hj, rfl⟩ := List.mem_map.mp hc
    have hj' : j < (l.length + 19) / 20 := List.mem_range.mp hj
    have hlt : 20 * j < l.length := by omega
    have hlen : ((l.drop (20 * j)).take 20).length = min 20 (l.length - 20 * j) := by
      simp [List.length_take, List.length_drop]
    have hpos : 0 < ((l.drop (20 * j)).take 20).length := by omega
    simp only [decide_eq_true_eq]
    intro hemp
    rw [List.isEmpty_iff] at hemp
    rw [hemp] at hpos
    simp at hpos
  have hsecond :
      (((List.range ((total + 19) / 20 - (l.length + 19) / 20)).map
          (fun x => (l.length + 19) / 20 + x)).map
        (fun j => (l.drop (20 * j)).take 20)).filter (fun c => ¬ c.isEmpty) = [] := by
    apply List.filter_eq_nil_iff.mpr
    intro c hc
    rw [List.map_map] at hc
    obtain ⟨i, hi, rfl⟩ := List.mem_map.mp hc
    have hge : l.length ≤ 20 * ((l.length + 19) / 20 + i) := by omega
    have hdrop : l.drop (20 * ((l.length + 19) / 20 + i)) = [] :=
      List.drop_eq_nil_of_le hge
    simp [Function.comp, hdrop]
  rw [hfirst, hsecond, List.append_nil]

theorem mem_batchChunks_subset (l : List String) (total : Nat) (c : List String)
    (hc : c ∈ batchChunks l total) : c ⊆ l := by
  have hc' := (List.mem_filter.mp hc).1
  obtain ⟨j, _, rfl⟩ := List.mem_map.mp hc'
  intro y hy
  exact List.drop_subset _ l (List.take_subset _ _ hy)

theorem unfetchedIds_subset (batch : List String) (resp : List (Option Album)) :
    unfetchedIds batch resp ⊆ batch :=
  fun _ hy => List.dedup_subset _ (List.mem_of_mem_filter hy)

/-!
## Helper lemmas: the stable sort
-/

theorem charsLe_refl (l : List Char) : charsLe l l = true := by
  induction l with
  | nil => rfl
  | cons a as ih => simp [charsLe, ih]

theorem strLe_refl (s : String) : strLe s s = true := charsLe_refl s.data

theorem charsLe_total (a : List Char) :
    ∀ b : List Char, charsLe a b = true ∨ charsLe b a = true := by
  induction a with
  | nil => intro b; left; rfl
  | cons x xs ih =>
    intro b
    cases b with
    | nil => right; rfl
    | cons y ys =>
      by_cases hxy : x.toNat < y.toNat
      · left; simp [charsLe, hxy]
      · by_cases hyx : y.toNat < x.toNat
        · right; simp [charsLe, hyx, hxy]
        · rcases ih ys with h | h
          · left; simp [charsLe, hxy, hyx, h]
          · right; simp [charsLe, hxy, hyx, h]

theorem strLe_total (a b : String) : strLe a b = true ∨ strLe b a = true :=
  charsLe_total a.data b.data

theorem charsLe_trans (a : List Char) :
    ∀ b c : List Char, charsLe a b = true → charsLe b c = true →
      charsLe a c = true := by
  induction a with
  | nil => intro b c _ _; rfl
  | cons x xs ih =>
    intro b c hab hbc
    cases b with
    | nil => simp [charsLe] at hab
    | cons y ys =>
      cases c with
      | nil => simp [charsLe] at hbc
      | cons z zs =>
        simp only [charsLe] at hab hbc ⊢
        by_cases hxy : x.toNat < y.toNat
        · by_cases hyz : y.toNat < z.toNat
          · simp [show x.toNat < z.toNat by omega]
          · by_cases hzy : z.toNat < y.toNat
            · simp [hyz, hzy] at hbc
            · have hyz' : y.toNat = z.toNat := by omega
              simp [show x.toNat < z.toNat by omega]
        · by_cases hyx : y.toNat < x.toNat
          · simp [hxy, hyx] at hab
          · have hxy' : x.toNat = y.toNat := by omega
            by_cases hyz : y.toNat < z.toNat
            · simp [show x.toNat < z.toNat by omega]
            · by_cases hzy : z.toNat < y.toNat
              · simp [hyz, hzy] at hbc
              · simp only [hxy, hyx, if_false] at hab
                simp only [hyz, hzy, if_false] at hbc
                simp [show ¬ x.toNat < z.toNat by omega,
                  show ¬ z.toNat < x.toNat by omega, ih ys zs hab hbc]

theorem strLe_trans (a b c : String) (hab : strLe a b = true)
    (hbc : strLe b c = true) : strLe a c = true :=
  charsLe_trans a.data b.data c.data hab hbc

theorem insertSorted_decomp {α : Type} (f : α → String) (x : α) (l : List α) :
    ∃ l1 l2, l = l1 ++ l2 ∧ insertSorted f x l = l1 ++ x :: l2 ∧
      ∀ y ∈ l1, strLe (f x) (f y) = false := by
  induction l with
  | nil => exact ⟨[], [], rfl, rfl, by intro y hy; cases hy⟩
  | cons a as ih =>
    by_cases hle : strLe (f x) (f a) = true
    · exact ⟨[], a :: as, rfl, by simp [insertSorted, hle], by intro y hy; cases hy⟩
    · obtain ⟨l1, l2, heq, hins, hl1⟩ := ih
      refine ⟨a :: l1, l2, by simp [heq], ?_, ?_⟩
      · simp only [insertSorted, if_neg hle, hins, List.cons_append]
      · intro y hy
        rcases List.mem_cons.mp hy with rfl | hy'
        · exact Bool.not_eq_true _ ▸ (by simpa using hle)
        · exact hl1 y hy'

theorem insertSorted_perm {α : Type} (f : α → String) (x : α) (l : List α) :
    (insertSorted f x l).Perm (x :: l) := by
  obtain ⟨l1, l2, heq, hins, _⟩ := insertSorted_decomp f x l
  rw [hins, heq]
  exact List.perm_middle

theorem stableSortBy_perm {α : Type} (f : α → String) (l : List α) :
    (stableSortBy f l).Perm l := by
  induction l with
  | nil => exact List.Perm.refl []
  | cons a as ih =>
    exact (insertSorted_perm f a (stableSortBy f as)).trans (ih.cons a)

theorem filter_insertSorted_eq_key {α : Type} (f : α → String) (x : α)
    (l : List α) (v : String) (hx : f x = v) :
    (insertSorted f x l).filter (fun z => f z == v) =
      x :: l.filter (fun z => f z == v) := by
  obtain ⟨l1, l2, heq, hins, hl1⟩ := insertSorted_decomp f x l
  rw [hins, heq, List.filter_append, List.filter_append]
  have hl1f : l1.filter (fun z => f z == v) = [] := by
    apply List.filter_eq_nil_iff.mpr
    intro y hy hpy
    have hyv : f y = v := by simpa using hpy
    have hsv : strLe (f x) (f y) = true := by
      rw [hx, hyv]; exact strLe_refl v
    rw [hl1 y hy] at hsv
    cases hsv
  rw [hl1f]
  simp [List.filter_cons, hx]

theorem filter_insertSorted_ne_key {α : Type} (f : α → String) (x : α)
    (l : List α) (v : String) (hx : ¬ f x = v) :
    (insertSorted f x l).filter (fun z => f z == v) =
      l.filter (fun z => f z == v) := by
  obtain ⟨l1, l2, heq, hins, _⟩ := insertSorted_decomp f x l
  rw [hins, heq, List.filter_append, List.filter_append]
  congr 1
  simp [List.filter_cons, hx]

theorem stableSortBy_filter_key {α : Type} (f : α → String) (l : List α)
    (v : String) :
    (stableSortBy f l).filter (fun z => f z == v) =
      l.filter (fun z => f z == v) := by
  induction l with
  | nil => rfl
  | cons a as ih =>
    by_cases ha : f a = v
    · simp only [stableSortBy]
      rw [filter_insertSorted_eq_key f a _ v ha, ih]
      simp [List.filter_cons, ha]
    · simp only [stableSortBy]
      rw [filter_insertSorted_ne_key f a _ v ha, ih]
      simp [List.filter_cons, ha]

theorem mem_insertSorted {α : Type} (f : α → String) (x : α) (l : List α)
    (z : α) : z ∈ insertSorted f x l ↔ z = x ∨ z ∈ l := by
  obtain ⟨l1, l2, heq, hins, _⟩ := insertSorted_decomp f x l
  rw [hins, heq]
  simp [List.mem_append, List.mem_cons]
  tauto

theorem insertSorted_sorted {α : Type} (f : α → String) (x : α) :
    ∀ l : List α, l.Pairwise (fun a b => strLe (f a) (f b) = true) →
      (insertSorted f x l).Pairwise (fun a b => strLe (f a) (f b) = true) := by
  intro l
  induction l with
  | nil => intro _; simp [insertSorted]
  | cons y ys ih =>
    intro hp
    rw [List.pairwise_cons] at hp
    by_cases hle : strLe (f x) (f y) = true
    · simp only [insertSorted, if_pos hle]
      rw [List.pairwise_cons]
      refine ⟨?_, List.pairwise_cons.mpr hp⟩
      intro z hz
      rcases List.mem_cons.mp hz with rfl | hz'
      · exact hle
      · exact strLe_trans _ _ _ hle (hp.1 z hz')
    · simp only [insertSorted, if_neg hle]
      rw [List.pairwise_cons]
      refine ⟨?_, ih hp.2⟩
      intro z hz
      rcases (mem_insertSorted f x ys z).mp hz with rfl | hz'
      · rcases strLe_total (f z) (f y) with h | h
        · exact absurd h hle
        · exact h
      · exact hp.1 z hz'

theorem stableSortBy_sorted {α : Type} (f : α → String) (l : List α) :
    (stableSortBy f l).Pairwise (fun a b => strLe (f a) (f b) = true) := by
  induction l with
  | nil => simp [stableSortBy]
  | cons a as ih => exact insertSorted_sorted f a _ ih

theorem insertSorted_congr {α : Type} (f g : α → String) (x : α)
    (hx : f x = g x) :
    ∀ l : List α, (∀ y ∈ l, f y = g y) →
      insertSorted f x l = insertSorted g x l := by
  intro l
  induction l with
  | nil => intro _; rfl
  | cons y ys ih =>
    intro hl
    have hy := hl y (List.mem_cons_self y ys)
    simp only [insertSorted, hx, hy]
    by_cases h : strLe (g x) (g y) = true
    · simp [h]
    · simp [h, ih (fun z hz => hl z (List.mem_cons_of_mem y hz))]

theorem stableSortBy_congr {α : Type} (f g : α → String) :
    ∀ l : List α, (∀ y ∈ l, f y = g y) →
      stableSortBy f l = stableSortBy g l := by
  intro l
  induction l with
  | nil => intro _; rfl
  | cons a as ih =>
    intro hl
    simp only [stableSortBy]
    rw [ih (fun z hz => hl z (List.mem_cons_of_mem a hz))]
    apply insertSorted_congr f g a (hl a (List.mem_cons_self a as))
    intro y hy
    have hmem : y ∈ as := (stableSortBy_perm g as).mem_iff.mp hy
    exact hl y (List.mem_cons_of_mem a hmem)

theorem codeSortVal_eq_specSortVal (k : String) (r : ExportRec)
    (h : (r.lookup k).isSome = true) : codeSortVal k r = specSortVal k r := by
  obtain ⟨v, hv⟩ := Option.isSome_iff_exists.mp h
  simp only [codeSortVal, specSortVal, hv, Option.getD_some]
  by_cases hs : pyStr v = ""
  · rw [if_pos hs, hs]
  · rw [if_neg hs]

/-!
## Claim theorems
-/

/-- C1: for a paginated source reporting total = N and serving its items
across pages of at most P ≥ 1 items each, the membership fetch accumulates
exactly N items, in the order the pages serve them (including the
degenerate single-page case) — in the cli loop and in the legacy loop. -/
theorem c1_paginated_fetch_exact {α : Type} (first : List α)
    (rest : List (List α)) (N P : Nat) (hP : 1 ≤ P)
    (hN : first.length + (rest.map List.length).sum = N)
    (hpages : ∀ p ∈ first :: rest, p.length ≤ P) :
    fetchPages N first rest = some (first ++ rest.flatten) ∧
      (first ++ rest.flatten).length = N ∧
      fetchPagesPy first rest = first ++ rest.flatten := by
  refine ⟨fetchPages_complete N first rest hN, ?_,
    fetchPagesPy_eq_flatten first rest⟩
  rw [List.length_append, List.length_flatten]
  omega

theorem c1_witness :
    fetchPages 3 [10, 11] [[12]] = some [10, 11, 12] ∧
      fetchPagesPy [10, 11] [[12]] = [10, 11, 12] := by
  have h := c1_paginated_fetch_exact [10, 11] [[12]] 3 2 (by decide) (by decide)
    (by decide)
  exact ⟨h.1, h.2.2⟩

/-- C2 counterexample: a membership item whose track is null contributes
ONE export record — it is included in the normalized output, not excluded,
so the count for a one-item playlist is 1, not 0. -/
theorem c2_counterexample :
    (exportData [⟨none, none, none⟩] []).length = 1 ∧ ¬ (1 : Nat) = 0 :=
  ⟨rfl, by decide⟩

/-- C2 (amended): normalization never raises and never drops an item — the
output has exactly one record per membership item, and a null-track item
yields the record whose track-derived fields are all `None`/empty
(deliberately retained, per the code comment at lines 374-391), while the
legacy exportify.py row builder raises (`TypeError`) on a null track. -/
theorem c2_null_track_one_record (items : List MembershipItem)
    (albums : List (String × Album)) (pos : Nat) (b t : Option String) :
    (exportData items albums).length = items.length ∧
    buildRecord pos albums ⟨none, b, t⟩ =
      [("Position", .int pos), ("Track URI", .none), ("Artist URI(s)", .list []),
       ("Album URI", .none), ("Track Name", .none), ("Album Name", .none),
       ("Artist Name(s)", .list []), ("Release Date", .none),
       ("Duration_ms", .none), ("Popularity", .none),
       ("Added By", optStr b), ("Added At", optStr t),
       ("Record Label", .none), ("Track ISRC", .none), ("Album UPC", .none)] ∧
    rowPy ⟨none, b, t⟩ = none := by
  refine ⟨?_, rfl, rfl⟩
  simp [exportData]

/-- C4 counterexample: declared total 0 with a first page of one item — the
declared total disagrees with the served count, yet the cli fetcher
returns the accumulated list without surfacing any consistency fault. -/
theorem c4_counterexample :
    fetchPages 0 [0] ([] : List (List Nat)) = some [0] ∧ ¬ (1 : Nat) = 0 :=
  ⟨rfl, by decide⟩

/-- C4 (amended): the cli fetcher faults (crash of `spotify.next` on an
exhausted cursor) exactly when the source exhausts strictly before the
declared total; when the source serves at least the declared total it
returns normally with at least `total` items and no consistency check
(overshoot within a page is silently accepted, later pages are not
requested); the legacy loop ignores the declared total entirely and
returns whatever the cursor chain serves. -/
theorem c4_total_mismatch_behaviour {α : Type} (total : Nat) (first : List α)
    (rest : List (List α)) :
    (fetchPages total first rest = none ↔
      first.length + (rest.map List.length).sum < total) ∧
    (∀ res, fetchPages total first rest = some res → total ≤ res.length) ∧
    fetchPagesPy first rest = first ++ rest.flatten :=
  ⟨fetchPages_none_iff total first rest,
   fun res h => fetchPages_some_length total first rest res h,
   fetchPagesPy_eq_flatten first rest⟩

theorem c4_witness : fetchPages 5 ([0] : List Nat) [[1]] = none := by
  have h := c4_total_mismatch_behaviour 5 ([0] : List Nat) [[1]]
  exact h.1.mpr (by decide)

/-- C5 counterexample: under a rate-limit response carrying a server
retry-after hint of 5, the guard suspends 61 time units — the hint is
ignored, and the pause is not the claimed 60-unit default either (the
countdown `range(60, -1, -1)` sleeps 61 times). -/
theorem c5_counterexample :
    rate_limited_request [CallResult.exn 429 (some 5), CallResult.ok (0 : Nat)] =
      some (.ok 0, 61) ∧ ¬ (61 : Nat) = 5 ∧ ¬ (61 : Nat) = 60 :=
  ⟨rfl, by decide, by decide⟩

/-- C5 (amended): every 429 outcome is retried until a non-429 outcome,
suspending a fixed 61 time units per retry regardless of any server hint;
a success after rate limiting is delivered as a success (never a failure),
and any non-429 failure propagates immediately, unmodified and unretried. -/
theorem c5_rate_limit_retry {α : Type} (hints : List (Option Nat)) :
    (∀ rest : List (CallResult α),
      rate_limited_request ((hints.map (fun h => CallResult.exn 429 h)) ++ rest) =
        (rate_limited_request rest).map
          (fun p => (p.1, p.2 + 61 * hints.length))) ∧
    (∀ a : α,
      rate_limited_request
          ((hints.map (fun h => CallResult.exn 429 h)) ++ [CallResult.ok a]) =
        some (.ok a, 61 * hints.length)) ∧
    (∀ (s : Nat) (ra : Option Nat) (rest : List (CallResult α)), ¬ s = 429 →
      rate_limited_request
          ((hints.map (fun h => CallResult.exn 429 h)) ++
            CallResult.exn s ra :: rest) =
        some (.error (s, ra), 61 * hints.length)) := by
  refine ⟨fun rest => rate_limited_request_retries hints rest, ?_, ?_⟩
  · intro a
    rw [rate_limited_request_retries hints [CallResult.ok a]]
    simp [rate_limited_request]
  · intro s ra rest hs
    rw [rate_limited_request_retries hints (CallResult.exn s ra :: rest)]
    simp [rate_limited_request, hs]

theorem c5_witness :
    rate_limited_request [CallResult.exn 429 (some 10), CallResult.exn 500 none,
        CallResult.ok (7 : Nat)] =
      some (.error (500, (none : Option Nat)), 61) := by
  have h := (c5_rate_limit_retry (α := Nat) [some 10]).2.2 500 none
    [CallResult.ok 7] (by decide)
  simpa using h

/-- Within the batch loop: when a batch response omits a requested ID and
the individual fallback lookup for that ID fails, the failure is caught
and logged as exactly one warning naming that ID, only that ID is omitted
from the batch result — every other omitted id that resolves is included
(relabelled) and all batch-resolved items are kept — and the batch loop
returns normally. -/
theorem processBatch_fallback_failure_isolated (showFn : String → Except SpotifyErr Album)
    (resp : List (Option Album)) (batch : List String) (x : String)
    (e : SpotifyErr) (hx : x ∈ unfetchedIds batch resp)
    (hfail : showFn x = .error e)
    (hothers : ∀ y ∈ unfetchedIds batch resp, ¬ y = x →
      ((showFn y).toOption).isSome = true) :
    (processBatch showFn resp batch).2 = [x] ∧
    (processBatch showFn resp batch).1 =
      respItems resp ++
        (((unfetchedIds batch resp).filter (fun y => ¬ y = x)).filterMap
          (fun y => ((showFn y).toOption).map setLabel)) := by
  have hU : (unfetchedIds batch resp).Nodup :=
    List.Nodup.filter _ (List.nodup_dedup batch)
  constructor
  · show (fallbackFetch showFn (unfetchedIds batch resp)).2 = [x]
    rw [fallbackFetch_snd]
    apply filter_eq_single _ _ x hU hx
    intro y hy
    constructor
    · intro hnone
      by_contra hne
      have hsome := hothers y hy hne
      rw [Option.isNone_iff_eq_none] at hnone
      rw [hnone] at hsome
      cases hsome
    · rintro rfl
      simp [hfail, Except.toOption]
  · show respItems resp ++
        (fallbackFetch showFn (unfetchedIds batch resp)).1.map setLabel = _
    rw [fallbackFetch_fst, List.map_filterMap]
    congr 1
    apply filterMap_drop_failing
    simp [hfail, Except.toOption]

/-- A fallback endpoint used to instantiate C3: fails on id "bad",
resolves everything else. -/
def c3ShowFn : String → Except SpotifyErr Album :=
  fun s =>
    if s = "bad" then .error "boom"
    else .ok ⟨some s, none, none, none, none, some "pub", none⟩

/-- A batch endpoint whose response omits id "bad" (a `None` entry),
resolving every other id. -/
def c3BatchFn : List String → List (Option Album) :=
  fun ids => ids.map (fun i =>
    if i = "bad" then none
    else some ⟨some i, none, none, none, none, none, none⟩)

theorem processBatch_fallback_example :
    (processBatch c3ShowFn [some ⟨some "a", none, none, none, none, none, none⟩, none]
      ["a", "bad", "miss"]).2 = ["bad"] := by
  have h := processBatch_fallback_failure_isolated c3ShowFn
    [some ⟨some "a", none, none, none, none, none, none⟩, none]
    ["a", "bad", "miss"] "bad" "boom" (by decide) rfl (by decide)
  exact h.1

/-- C3: at the failing input — the batch response omits id "bad" and the
fallback lookup for it raises `SpotifyException` — the batch loop does
complete, logging exactly the one warning and dropping only "bad" from
the aggregated items; but the albums-lookup build of `export_playlist`
(`albums = {aid: self.album_cache[aid] for aid in album_ids}`,
exportify-cli.py line 421) then raises `KeyError` for that same id, so
the playlist export aborts instead of continuing to completion. -/
theorem c3_keyerror_aborts_export :
    (fetchAllItemsBatch c3BatchFn c3ShowFn ["a", "bad"] (some 2)).warnings =
      ["bad"] ∧
    (fetchAllItemsBatch c3BatchFn c3ShowFn ["a", "bad"] (some 2)).items =
      [⟨some "a", none, none, none, none, none, none⟩] ∧
    (resolveAlbums c3BatchFn c3ShowFn ["a", "bad"] []).2 = none :=
  ⟨rfl, rfl, rfl⟩

/-- C6: an album id already resolved in the run cache is excluded from the
residual fetch set, appears in no batch request chunk and in no fallback
call of the ensuing batch fetch, its cache entry survives any cache
update, and every fetched result carrying an id is inserted into the
cache keyed by that id. -/
theorem c6_cache_hit_no_refetch (cache : List (String × Album)) (x : String)
    (a : Album) (albumIds : List String)
    (batchFn : List String → List (Option Album))
    (showFn : String → Except SpotifyErr Album) (ov : Option Nat)
    (albs : List Album) (hx : cache.lookup x = some a) :
    ¬ x ∈ idsToFetch albumIds cache ∧
    (∀ c ∈ (fetchAllItemsBatch batchFn showFn (idsToFetch albumIds cache) ov).batchCalls,
      ¬ x ∈ c) ∧
    ¬ x ∈ (fetchAllItemsBatch batchFn showFn (idsToFetch albumIds cache) ov).fallbackCalls ∧
    ((updateCache cache albs).lookup x).isSome = true ∧
    (∀ alb ∈ albs, ∀ i, truthyId alb = some i →
      ((updateCache cache albs).lookup i).isSome = true) := by
  have hnotin : ¬ x ∈ idsToFetch albumIds cache := by
    intro hmem
    have hcond := (List.mem_filter.mp hmem).2
    rw [hx] at hcond
    simp at hcond
  have hbc : (fetchAllItemsBatch batchFn showFn (idsToFetch albumIds cache) ov).batchCalls =
      batchChunks (idsToFetch albumIds cache)
        (ov.getD (idsToFetch albumIds cache).length) := by
    rw [fetchAllItemsBatch, foldl_batchStep_batchCalls]
    rfl
  have hchunks : ∀ c ∈ (fetchAllItemsBatch batchFn showFn (idsToFetch albumIds cache) ov).batchCalls,
      ¬ x ∈ c := by
    intro c hc hxc
    rw [hbc] at hc
    exact hnotin (mem_batchChunks_subset _ _ c hc hxc)
  refine ⟨hnotin, hchunks, ?_, lookup_updateCache_isSome albs cache x (by rw [hx]; rfl), ?_⟩
  · intro hmem
    have hfc : (fetchAllItemsBatch batchFn showFn (idsToFetch albumIds cache) ov).fallbackCalls =
        ((batchChunks (idsToFetch albumIds cache)
            (ov.getD (idsToFetch albumIds cache).length)).map
          (fun b => unfetchedIds b (batchFn b))).flatten := by
      rw [fetchAllItemsBatch, foldl_batchStep_fallbackCalls]
      rfl
    rw [hfc] at hmem
    obtain ⟨l, hl, hxl⟩ := List.mem_flatten.mp hmem
    obtain ⟨b, hb, rfl⟩ := List.mem_map.mp hl
    have hxb : x ∈ b := unfetchedIds_subset b (batchFn b) hxl
    have hbchunk : b ∈ (fetchAllItemsBatch batchFn showFn (idsToFetch albumIds cache) ov).batchCalls := by
      rw [hbc]; exact hb
    exact hchunks b hbchunk hxb
  · intro alb hmem i hid
    exact lookup_updateCache_of_mem albs cache alb hmem i hid

/-- A batch endpoint used to instantiate C6: resolves every requested id. -/
def c6BatchFn : List String → List (Option Album) :=
  fun ids => ids.map (fun i => some ⟨some i, none, none, none, none, none, none⟩)

theorem c6_witness :
    ¬ "x" ∈ idsToFetch ["x", "y"] [("x", ⟨some "x", none, none, none, none, none, none⟩)] ∧
    ((updateCache [("x", ⟨some "x", none, none, none, none, none, none⟩)]
      [⟨some "y", none, none, none, none, none, none⟩]).lookup "x").isSome = true := by
  have h := c6_cache_hit_no_refetch
    [("x", ⟨some "x", none, none, none, none, none, none⟩)] "x"
    ⟨some "x", none, none, none, none, none, none⟩ ["x", "y"]
    c6BatchFn c3ShowFn none [⟨some "y", none, none, none, none, none, none⟩]
    rfl
  exact ⟨h.1, h.2.2.2.1⟩

/-- C7: for a list of K requested ids the batch fetch issues exactly
ceil(K/20) batch requests (zero when K = 0), whose chunks are consecutive
slices of at most 20 ids concatenating back to the id list; this also
holds when a total_override of at least K is supplied. -/
theorem c7_batch_chunk_count (batchFn : List String → List (Option Album))
    (showFn : String → Except SpotifyErr Album) (idList : List String)
    (ov : Option Nat) (hov : ∀ t, ov = some t → idList.length ≤ t) :
    ((fetchAllItemsBatch batchFn showFn idList ov).batchCalls).length =
      (idList.length + 19) / 20 ∧
    ((fetchAllItemsBatch batchFn showFn idList ov).batchCalls).flatten = idList ∧
    (∀ c ∈ (fetchAllItemsBatch batchFn showFn idList ov).batchCalls,
      c.length ≤ 20) := by
  have htot : idList.length ≤ ov.getD idList.length := by
    cases ov with
    | none => simp
    | some t => simpa using hov t rfl
  have hbc : (fetchAllItemsBatch batchFn showFn idList ov).batchCalls =
      (List.range ((idList.length + 19) / 20)).map
        (fun j => (idList.drop (20 * j)).take 20) := by
    rw [fetchAllItemsBatch, foldl_batchStep_batchCalls]
    rw [show (⟨[], [], [], []⟩ : BatchRun).batchCalls = [] from rfl,
      List.nil_append]
    exact batchChunks_of_le idList _ htot
  refine ⟨by rw [hbc]; simp, ?_, ?_⟩
  · rw [hbc]
    apply chunksFlatten
    omega
  · rw [hbc]
    intro c hc
    obtain ⟨j, _, rfl⟩ := List.mem_map.mp hc
    exact List.length_take_le 20 (idList.drop (20 * j))

theorem c7_witness :
    ((fetchAllItemsBatch c6BatchFn c3ShowFn
        ((List.range 25).map (fun n => toString n)) (some 30)).batchCalls).length = 2 := by
  have h := c7_batch_chunk_count c6BatchFn c3ShowFn
    ((List.range 25).map (fun n => toString n)) (some 30) (by decide)
  rw [h.1]
  rfl

/-- C8: post-processing applies, in this order, (1) with a non-default
sort key, a stable sort of the full record sequence by the string form of
that key's value (the sort used is a permutation, is sorted by the key,
and keeps ties in original order); (2) with reverse requested, the exact
reversal of the result; (3) the removal of the URI and external-id
columns afterwards — so a caller may sort by a column that is then
dropped.  On full-schema records the code's pipeline computes exactly the
spec's sort-reverse-drop pipeline. -/
theorem c8_postprocessing_order (k : String) (rev includeUris externalIds : Bool)
    (data : List ExportRec)
    (h : ¬ k = "spotify_default" → ∀ r ∈ data, (r.lookup k).isSome = true) :
    postProcessCode k rev includeUris externalIds data =
      some (postProcessSpec k rev includeUris externalIds data) ∧
    (stableSortBy (specSortVal k) data).Perm data ∧
    (stableSortBy (specSortVal k) data).Pairwise
      (fun a b => strLe (specSortVal k a) (specSortVal k b) = true) ∧
    (∀ v, (stableSortBy (specSortVal k) data).filter
        (fun r => specSortVal k r == v) =
      data.filter (fun r => specSortVal k r == v)) := by
  refine ⟨?_, stableSortBy_perm _ _, stableSortBy_sorted _ _,
    fun v => stableSortBy_filter_key _ _ _⟩
  by_cases hk : k = "spotify_default"
  · simp [postProcessCode, postProcessSpec, condSortCode, condSortSpec, hk]
  · have hall := h hk
    have halls : data.all (fun r => (r.lookup k).isSome) = true := by
      rw [List.all_eq_true]
      intro r hr
      exact hall r hr
    have hsort : stableSortBy (codeSortVal k) data =
        stableSortBy (specSortVal k) data :=
      stableSortBy_congr _ _ data
        (fun r hr => codeSortVal_eq_specSortVal k r (hall r hr))
    simp [postProcessCode, postProcessSpec, condSortCode, condSortSpec, hk,
      halls, hsort]

theorem c8_witness :
    postProcessCode "Track Name" true false true
        [[("Track Name", PyVal.str "b"), ("Album URI", PyVal.str "u1")],
         [("Track Name", PyVal.str "a"), ("Album URI", PyVal.str "u2")]] =
      some (postProcessSpec "Track Name" true false true
        [[("Track Name", PyVal.str "b"), ("Album URI", PyVal.str "u1")],
         [("Track Name", PyVal.str "a"), ("Album URI", PyVal.str "u2")]]) := by
  have h := c8_postprocessing_order "Track Name" true false true
    [[("Track Name", PyVal.str "b"), ("Album URI", PyVal.str "u1")],
     [("Track Name", PyVal.str "a"), ("Album URI", PyVal.str "u2")]]
    (by decide)
  exact h.1

/-- C9 counterexample: exporting an empty playlist through exportify.py
creates the CSV and writes the 23-column header row before any fetching —
a header-only file, where the claim says no file at all is created. -/
theorem c9_counterexample :
    exportPyCsvFile [] = [headersPy.map PyVal.str] ∧ headersPy.length = 23 :=
  ⟨rfl, rfl⟩

/-- C9 (amended): exportify-cli's `write_file` writes no file at all and
emits exactly one warning when the record sequence is empty (and no
warning otherwise); the legacy exportify.py instead always creates the
CSV and writes the header row before fetching, so an empty export leaves
a header-only file. -/
theorem c9_empty_export (filePath : String) (formats : List String)
    (data : List ExportRec) :
    write_file filePath [] formats = ([], 1) ∧
    (¬ data = [] → (write_file filePath data formats).2 = 0) ∧
    exportPyCsvFile [] = [headersPy.map PyVal.str] := by
  refine ⟨rfl, ?_, rfl⟩
  intro hd
  simp [write_file, hd]

theorem c9_witness :
    write_file "playlists/liked_songs" [] ["csv", "json"] = ([], 1) ∧
    (write_file "playlists/liked_songs" [[("Position", PyVal.int 1)]]
      ["csv"]).2 = 0 :=
  ⟨(c9_empty_export "playlists/liked_songs" ["csv", "json"] []).1,
   (c9_empty_export "playlists/liked_songs" ["csv"]
      [[("Position", PyVal.int 1)]]).2.1 (by simp)⟩

/-- C10: the filename sanitizer is not injective — names differing only in
letter case, or only in which disallowed character got replaced by an
underscore, map to the same filename and hence the same export path under
one output directory, and a second write to that path (mode "w") replaces
the first playlist's file. -/
theorem c10_sanitize_not_injective :
    ¬ ("A" : String) = "a" ∧
    sanitize_filename "A" = sanitize_filename "a" ∧
    ¬ ("a!" : String) = "a?" ∧
    sanitize_filename "a!" = sanitize_filename "a?" ∧
    exportPath "playlists" "A" = exportPath "playlists" "a" ∧
    (∀ (fs : List (String × List ExportRec)) (p : String)
       (c1 c2 : List ExportRec),
      (fsWrite (fsWrite fs p c1) p c2).lookup p = some c2) := by
  refine ⟨by decide, rfl, by decide, rfl, rfl, ?_⟩
  intro fs p c1 c2
  simp [fsWrite, List.lookup]
